import Mathlib

/-!
# gomongo: a facade over a document-store driver

Shallow embedding of `gomongo.go` (`CreateMongoClient`, `jsonToBson`, `Add`,
`Update`, `UpdateByID`, `Remove`, `RemoveByID`, `GetAll`).

* Go functions returning `(value, error)` become functions returning an
  `Outcome`: either a normal return of a value together with an optional error,
  or a run-time panic (nil dereference, failed type assertion).
* The driver (`*mongo.Collection`) is an external collaborator.  Its round trips
  are a parameter of every facade function (`Collection σ`, over an arbitrary
  store state `σ`); every round trip that is issued is recorded in a call log.
* `Value` stands for a dynamically typed Go value at the granularity of the
  binary document encoding; a document is an ordered list of fields.
-/

namespace Gomongo

/-! ## Errors, panics, outcomes -/

/-- The `error` values that can flow through the facade. -/
inductive Err where
  /-- `primitive.ErrInvalidHex`. -/
  | ErrInvalidHex
  /-- `hex.InvalidByteError`; the payload is the offending character. -/
  | InvalidByteError (c : Char)
  /-- `hex.ErrLength`. -/
  | ErrLength
  /-- `bson.Marshal` found a value that has no binary representation. -/
  | ErrNoEncoder
  /-- `mongo.ErrNoDocuments`: the filter matched nothing. -/
  | ErrNoDocuments
  /-- Any other failure reported by the driver (network, timeout, write error). -/
  | store (msg : String)
  deriving DecidableEq, Repr

/-- Run-time panics of the Go program that the facade can reach. -/
inductive Panic where
  /-- Field access through a nil pointer. -/
  | nilDereference
  /-- A single-value type assertion `x.(T)` on a value that is not a `T`. -/
  | typeAssertion
  deriving DecidableEq, Repr

/-- Result of running a Go function of result type `(α, error)`. -/
inductive Outcome (α : Type) where
  /-- Normal return; `err = none` is the nil error. -/
  | ret (val : α) (err : Option Err)
  /-- The function did not return: the goroutine panicked. -/
  | panic (p : Panic)
  deriving DecidableEq, Repr

/-! ## Identifiers (`primitive.ObjectID`) -/

/-- A `primitive.ObjectID`: exactly twelve bytes. -/
structure ObjectID where
  bytes : List (Fin 256)
  len : bytes.length = 12
  deriving DecidableEq, Repr

/-- The constant `hextable` of `encoding/hex`. -/
def hextable : String := "0123456789abcdef"

/-- Lower-case digit of a nibble, `hextable[n]`. -/
def hexDigit (n : Nat) : Char := hextable.data.getD n '0'

/-- `hex.Encode`: two digits per byte, high nibble first. -/
def hexEncode : List (Fin 256) → List Char
  | [] => []
  | b :: rest => hexDigit (b.val / 16) :: hexDigit (b.val % 16) :: hexEncode rest

/-- `fromHexChar` of `encoding/hex`: the value of a digit, upper or lower case. -/
def fromHexChar (c : Char) : Option Nat :=
  if '0'.toNat ≤ c.toNat ∧ c.toNat ≤ '9'.toNat then some (c.toNat - '0'.toNat)
  else if 'a'.toNat ≤ c.toNat ∧ c.toNat ≤ 'f'.toNat then some (c.toNat - 'a'.toNat + 10)
  else if 'A'.toNat ≤ c.toNat ∧ c.toNat ≤ 'F'.toNat then some (c.toNat - 'A'.toNat + 10)
  else none

/-- `hex.Decode`: digits are consumed in pairs; a bad digit is reported before a
dangling last digit. -/
def hexDecode : List Char → Except Err (List (Fin 256))
  | [] => .ok []
  | [c] =>
    match fromHexChar c with
    | none => .error (.InvalidByteError c)
    | some _ => .error .ErrLength
  | p :: q :: rest =>
    match fromHexChar p with
    | none => .error (.InvalidByteError p)
    | some a =>
      match fromHexChar q with
      | none => .error (.InvalidByteError q)
      | some b =>
        match hexDecode rest with
        | .error e => .error e
        | .ok bs => .ok (Fin.ofNat (a * 16 + b) :: bs)

/-- `ObjectID.Hex`: the identifier as 24 lower-case hexadecimal digits. -/
def ObjectID.Hex (o : ObjectID) : String := String.mk (hexEncode o.bytes)

/-- `primitive.ObjectIDFromHex`: `len(s)` counts bytes and must be 24, then the
digits are decoded.  Every hexadecimal digit is a one-byte code point, so a
string that passes both tests has twelve decoded bytes. -/
def ObjectIDFromHex (s : String) : Except Err ObjectID :=
  if s.utf8ByteSize ≠ 24 then .error .ErrInvalidHex
  else
    match hexDecode s.data with
    | .error e => .error e
    | .ok bs => if h : bs.length = 12 then .ok ⟨bs, h⟩ else .error .ErrInvalidHex

/-- A well-formed identifier string: exactly 24 hexadecimal characters. -/
def WellFormedID (s : String) : Prop :=
  s.length = 24 ∧ ∀ c ∈ s.data, (fromHexChar c).isSome = true

/-! ## Values and documents -/

/-- A dynamically typed Go value (`interface{}`), at the granularity of the
binary document encoding.  `chan` stands for the Go values that have no binary
representation (channels, functions). -/
inductive Value where
  | null
  | bool (b : Bool)
  | str (s : String)
  | int (n : Int)
  | oid (o : ObjectID)
  | doc (fields : List (String × Value))
  | arr (items : List Value)
  | chan
  deriving Repr

/-- `bson.D`: a document as an ordered list of fields. -/
abbrev D := List (String × Value)

/-- `map[string]interface{}` / `bson.M`: a Go mapping, listed in the order in
which the encoder visits its keys.  A Go mapping has pairwise distinct keys. -/
abbrev M := List (String × Value)

/-- The binary document encoding (`[]byte`), identified with the field list
that it encodes. -/
abbrev Raw := List (String × Value)

mutual
/-- Equality of values as the store compares them. -/
def Value.beq : Value → Value → Bool
  | .null, .null => true
  | .bool a, .bool b => a == b
  | .str a, .str b => a == b
  | .int a, .int b => a == b
  | .oid a, .oid b => a == b
  | .doc a, .doc b => Value.beqFields a b
  | .arr a, .arr b => Value.beqItems a b
  | .chan, .chan => true
  | _, _ => false
/-- Field-wise equality of documents. -/
def Value.beqFields : List (String × Value) → List (String × Value) → Bool
  | [], [] => true
  | (k, v) :: r, (k2, v2) :: r2 => k == k2 && Value.beq v v2 && Value.beqFields r r2
  | _, _ => false
/-- Item-wise equality of arrays. -/
def Value.beqItems : List Value → List Value → Bool
  | [], [] => true
  | v :: r, v2 :: r2 => Value.beq v v2 && Value.beqItems r r2
  | _, _ => false
end

/-- Whether a key can be written as an element name of the binary encoding:
`bson.Marshal` refuses a key that contains a NUL byte. -/
def keyEncodable (k : String) : Bool := k.data.all (fun c => c.toNat != 0)

mutual
/-- Whether a Go value has a binary representation: a channel or function has
none, an integer beyond the 64-bit signed range (a large `uint64`) has none,
and a nested mapping or sequence needs one for every key and value. -/
def Value.encodable : Value → Bool
  | .chan => false
  | .int n => decide (-9223372036854775808 ≤ n ∧ n ≤ 9223372036854775807)
  | .doc fs => Value.encodableFields fs
  | .arr xs => Value.encodableItems xs
  | _ => true
/-- Whether every key and value of a mapping has a binary representation. -/
def Value.encodableFields : List (String × Value) → Bool
  | [] => true
  | (k, v) :: r => keyEncodable k && Value.encodable v && Value.encodableFields r
/-- Whether every item of a sequence has a binary representation. -/
def Value.encodableItems : List Value → Bool
  | [] => true
  | v :: r => Value.encodable v && Value.encodableItems r
end

/-- First value stored under a key (`Lookup` on an encoded document). -/
def lookup (k : String) : List (String × Value) → Option Value
  | [] => none
  | (k2, v) :: r => if k2 = k then some v else lookup k r

/-- Assignment `m[k] = v` on a mapping: overwrite the entry of `k`, or add one. -/
def assign (k : String) (v : Value) : List (String × Value) → List (String × Value)
  | [] => [(k, v)]
  | (k2, v2) :: r => if k2 = k then (k, v) :: r else (k2, v2) :: assign k v r

/-- `bson.D.Map`: `for _, e := range d { m[e.Key] = e.Value }`. -/
def D.Map (d : D) : M := d.foldl (fun m e => assign e.1 e.2 m) []

/-- `bson.Marshal` on a mapping: fails on a key or value without binary
representation (see `Value.encodable`). -/
def Marshal (m : M) : Except Err Raw :=
  if Value.encodableFields m then .ok m else .error .ErrNoEncoder

/-- `jsonToBson` (gomongo.go:40): convert a mapping to the binary encoding. -/
def jsonToBson (data : M) : Except Err Raw :=
  match Marshal data with
  | .error err => .error err
  | .ok doc => .ok doc

/-! ## The driver surface used by the facade -/

/-- `context.WithTimeout(context.Background(), d)`: only the bound is kept. -/
structure Ctx where
  timeoutSeconds : Nat
  deriving DecidableEq, Repr

/-- `defaultContext` (gomongo.go:35): a context bounded by thirty seconds. -/
def defaultContext : Ctx := ⟨30⟩

/-- `options.ReturnDocument`. -/
inductive ReturnDocument where
  | Before
  | After
  deriving DecidableEq, Repr

/-- `mongo.InsertOneResult`; `InsertedID` has type `interface{}`. -/
structure InsertOneResult where
  InsertedID : Value

/-- `mongo.SingleResult`: the error of the call and, when there is none, what
unmarshalling the returned document into a `bson.D` gives. -/
structure SingleResult where
  err : Option Err
  rdr : Except Err D

/-- `SingleResult.Err`. -/
def SingleResult.Err (r : SingleResult) : Option Err := r.err

/-- `SingleResult.Decode` into a `bson.D`: the error of the call comes first. -/
def SingleResult.Decode (r : SingleResult) : Except Gomongo.Err D :=
  match r.err with
  | some e => .error e
  | none => r.rdr

/-- `mongo.Cursor`, reduced to what `Cursor.All` into a slice of mappings gives. -/
structure Cursor where
  all : Except Err (List M)

/-- `Cursor.All`. -/
def Cursor.All (cur : Cursor) : Except Err (List M) := cur.all

/-- A document argument of a driver method (`interface{}`): the facade passes
encoded bytes, a `bson.M`, or a `bson.D`. -/
inductive Document where
  | bytes (b : Raw)
  | M (m : M)
  | D (d : D)

/-- The driver turns every document argument into its wire form before the
round trip (`transformBsoncoreDocument`): bytes are taken as they are, a mapping
goes through the same encoder as `bson.Marshal`. -/
def transformBsoncoreDocument : Document → Except Err Raw
  | .bytes b => .ok b
  | .M m => Marshal m
  | .D d => Marshal d

/-- A round trip to the store, as recorded in the call log. -/
inductive Call where
  | InsertOne (ctx : Ctx) (doc : Raw)
  | FindOneAndUpdate (ctx : Ctx) (filter update : Raw) (rd : ReturnDocument)
  | FindOneAndDelete (ctx : Ctx) (filter : Raw)
  | Find (ctx : Ctx) (filter : Raw)

/-- The store behind a `*mongo.Collection`, over a state `σ`: one function per
round trip.  It is a parameter of the facade: nothing is assumed about it. -/
structure Collection (σ : Type) where
  insertOne : σ → Ctx → Raw → (Option InsertOneResult × Option Err) × σ
  findOneAndUpdate : σ → Ctx → Raw → Raw → ReturnDocument → SingleResult × σ
  findOneAndDelete : σ → Ctx → Raw → SingleResult × σ
  find : σ → Ctx → Raw → (Option Cursor × Option Err) × σ

/-- State of a run: the store and the log of the round trips issued so far. -/
structure World (σ : Type) where
  store : σ
  log : List Call

/-- `Collection.InsertOne`. -/
def Collection.InsertOne {σ : Type} (c : Collection σ) (w : World σ) (ctx : Ctx)
    (document : Document) : (Option InsertOneResult × Option Err) × World σ :=
  match transformBsoncoreDocument document with
  | .error e => ((none, some e), w)
  | .ok doc =>
    let r := c.insertOne w.store ctx doc
    (r.1, ⟨r.2, w.log ++ [Call.InsertOne ctx doc]⟩)

/-- `Collection.FindOneAndUpdate`. -/
def Collection.FindOneAndUpdate {σ : Type} (c : Collection σ) (w : World σ) (ctx : Ctx)
    (filter update : Document) (rd : ReturnDocument) : SingleResult × World σ :=
  match transformBsoncoreDocument filter with
  | .error e => (⟨some e, .error e⟩, w)
  | .ok f =>
    match transformBsoncoreDocument update with
    | .error e => (⟨some e, .error e⟩, w)
    | .ok u =>
      let r := c.findOneAndUpdate w.store ctx f u rd
      (r.1, ⟨r.2, w.log ++ [Call.FindOneAndUpdate ctx f u rd]⟩)

/-- `Collection.FindOneAndDelete`. -/
def Collection.FindOneAndDelete {σ : Type} (c : Collection σ) (w : World σ) (ctx : Ctx)
    (filter : Document) : SingleResult × World σ :=
  match transformBsoncoreDocument filter with
  | .error e => (⟨some e, .error e⟩, w)
  | .ok f =>
    let r := c.findOneAndDelete w.store ctx f
    (r.1, ⟨r.2, w.log ++ [Call.FindOneAndDelete ctx f]⟩)

/-- `Collection.Find`. -/
def Collection.Find {σ : Type} (c : Collection σ) (w : World σ) (ctx : Ctx)
    (filter : Document) : (Option Cursor × Option Err) × World σ :=
  match transformBsoncoreDocument filter with
  | .error e => ((none, some e), w)
  | .ok f =>
    let r := c.find w.store ctx f
    (r.1, ⟨r.2, w.log ++ [Call.Find ctx f]⟩)

/-! ## The facade (gomongo.go) -/

/-- The client side of the driver used by `CreateMongoClient`, over a client
type `κ`: `mongo.NewClient(options.Client().ApplyURI(uri))` and `Client.Connect`. -/
structure Mongo (κ : Type) where
  NewClient : String → Except Err κ
  Connect : κ → Ctx → Option Err

/-- The local `uri` of `CreateMongoClient` (gomongo.go:16). -/
def CreateMongoClient.uri (service : String) : String :=
  "mongodb://" ++ service ++ ":27017"

/-- `CreateMongoClient` (gomongo.go:15). -/
def CreateMongoClient {κ : Type} (mongo : Mongo κ) (service : String) : Outcome (Option κ) :=
  let uri := CreateMongoClient.uri service
  match mongo.NewClient uri with
  | .error err => .ret none (some err)
  | .ok client =>
    let ctx : Ctx := ⟨30⟩
    match mongo.Connect client ctx with
    | some err => .ret none (some err)
    | none => .ret (some client) none

/-- `Add` (gomongo.go:49).  The result of `InsertOne` is used before the error is
looked at: `result.InsertedID` dereferences `result`, and `.(primitive.ObjectID)`
is a single-value type assertion. -/
def Add {σ : Type} (collection : Collection σ) (data : M) (w : World σ) :
    Outcome String × World σ :=
  let ctx := defaultContext
  match jsonToBson data with
  | .error err => (.ret "" (some err), w)
  | .ok doc =>
    let r := collection.InsertOne w ctx (.bytes doc)
    match r.1.1 with
    | none => (.panic .nilDereference, r.2)
    | some result =>
      match result.InsertedID with
      | .oid objectID => (.ret objectID.Hex r.1.2, r.2)
      | _ => (.panic .typeAssertion, r.2)

/-- `Update` (gomongo.go:66). -/
def Update {σ : Type} (collection : Collection σ) (filter update : M) (w : World σ) :
    Outcome (Option M) × World σ :=
  let ctx := defaultContext
  match jsonToBson filter with
  | .error err => (.ret none (some err), w)
  | .ok filterDoc =>
    match jsonToBson update with
    | .error err => (.ret none (some err), w)
    | .ok updateDoc =>
      let after := ReturnDocument.After
      let r := collection.FindOneAndUpdate w ctx (.bytes filterDoc) (.bytes updateDoc) after
      match r.1.Err with
      | some e => (.ret none (some e), r.2)
      | none =>
        match r.1.Decode with
        | .error err => (.ret none (some err), r.2)
        | .ok doc => (.ret (some (D.Map doc)) none, r.2)

/-- `UpdateByID` (gomongo.go:102). -/
def UpdateByID {σ : Type} (collection : Collection σ) (ID : String) (update : M)
    (w : World σ) : Outcome (Option M) × World σ :=
  let ctx := defaultContext
  match ObjectIDFromHex ID with
  | .error err => (.ret none (some err), w)
  | .ok objectID =>
    let filterDoc : M := [("_id", .oid objectID)]
    match jsonToBson update with
    | .error err => (.ret none (some err), w)
    | .ok updateDoc =>
      let after := ReturnDocument.After
      let r := collection.FindOneAndUpdate w ctx (.M filterDoc) (.bytes updateDoc) after
      match r.1.Err with
      | some e => (.ret none (some e), r.2)
      | none =>
        match r.1.Decode with
        | .error err => (.ret none (some err), r.2)
        | .ok doc => (.ret (some (D.Map doc)) none, r.2)

/-- `Remove` (gomongo.go:140). -/
def Remove {σ : Type} (collection : Collection σ) (filter : M) (w : World σ) :
    Outcome (Option M) × World σ :=
  let ctx := defaultContext
  match jsonToBson filter with
  | .error err => (.ret none (some err), w)
  | .ok filterDoc =>
    let r := collection.FindOneAndDelete w ctx (.bytes filterDoc)
    match r.1.Err with
    | some e => (.ret none (some e), r.2)
    | none =>
      match r.1.Decode with
      | .error err => (.ret none (some err), r.2)
      | .ok doc => (.ret (some (D.Map doc)) none, r.2)

/-- `RemoveByID` (gomongo.go:164). -/
def RemoveByID {σ : Type} (collection : Collection σ) (ID : String) (w : World σ) :
    Outcome (Option M) × World σ :=
  let ctx := defaultContext
  match ObjectIDFromHex ID with
  | .error err => (.ret none (some err), w)
  | .ok objectID =>
    let filterDoc : M := [("_id", .oid objectID)]
    let r := collection.FindOneAndDelete w ctx (.M filterDoc)
    match r.1.Err with
    | some e => (.ret none (some e), r.2)
    | none =>
      match r.1.Decode with
      | .error err => (.ret none (some err), r.2)
      | .ok doc => (.ret (some (D.Map doc)) none, r.2)

/-- `GetAll` (gomongo.go:192).  `none` is the nil slice; `documents` starts as
the empty, non-nil slice and `Cursor.All` fills it.  A nil cursor next to a nil
error makes `cur.All` dereference nil.  The deferred `cur.Close` only releases
the cursor and is not recorded. -/
def GetAll {σ : Type} (collection : Collection σ) (w : World σ) :
    Outcome (Option (List M)) × World σ :=
  let ctx := defaultContext
  let r := collection.Find w ctx (.D [])
  match r.1.2 with
  | some err => (.ret none (some err), r.2)
  | none =>
    match r.1.1 with
    | none => (.panic .nilDereference, r.2)
    | some cur =>
      match cur.All with
      | .error err => (.ret none (some err), r.2)
      | .ok documents => (.ret (some documents) none, r.2)

/-! ## Reading a connection string

What the driver reads out of the string given to `ApplyURI`, for the parts the
facade can influence: scheme, credentials, host list.  The reading follows the
driver's connection-string code on the strings it covers and says so when a
string is outside of them. -/

/-- The scheme, credentials (user name and, if given, password) and host
entries of a connection string `scheme://[user[:password]@]host[,host...]`. -/
structure ConnString where
  scheme : String
  userinfo : Option (String × Option String)
  hosts : List String
  deriving DecidableEq, Repr

/-- Outcome of reading (a part of) a connection string: the driver accepts it
with the given content, the driver rejects it, or the string uses a feature
that is not modelled here (percent escapes, bracketed literals, a database or
option part, DNS seed lists, an empty user name): then nothing is said. -/
inductive Read (α : Type) where
  | accepted (a : α)
  | rejected
  | unmodelled
  deriving DecidableEq, Repr

/-- `strings.HasPrefix` followed by slicing the match off: the rest of `cs`
after the leading `p`, if `cs` starts with `p`. -/
def stripLeading : List Char → List Char → Option (List Char)
  | [], cs => some cs
  | _ :: _, [] => none
  | p :: ps, c :: cs => if p = c then stripLeading ps cs else none

/-- Cut at the first character satisfying `p` (`strings.Index`,
`strings.IndexAny`): the part before it and, if there is one, that character
with the part after it. -/
def cutAt (p : Char → Bool) : List Char → List Char × Option (Char × List Char)
  | [] => ([], none)
  | c :: r => if p c then ([], some (c, r)) else ((c :: (cutAt p r).1), (cutAt p r).2)

/-- `strings.Split(s, ",")`. -/
def splitComma : List Char → List (List Char)
  | [] => [[]]
  | c :: r =>
    if c = ',' then [] :: splitComma r
    else
      match splitComma r with
      | [] => [[c]]
      | h :: t => (c :: h) :: t

/-- The port test of `addHost` on a non-empty port without sign character:
`strconv.Atoi` must succeed (decimal digits only) with a value from 1 to
65535. -/
def portOK (port : List Char) : Bool :=
  port.all Char.isDigit &&
    decide (1 ≤ port.foldl (fun n c => 10 * n + (c.toNat - 48)) 0) &&
    decide (port.foldl (fun n c => 10 * n + (c.toNat - 48)) 0 ≤ 65535)

/-- `addHost` of the driver on one non-empty host entry.  The entry is
unescaped (`url.QueryUnescape`; entries with `%` or `+` are not modelled), split
at its last colon (`net.SplitHostPort`; entries with brackets are not modelled):
without colon the entry is taken without port, with a second colon it is
refused, and a non-empty port must pass the port test. -/
def addHost (entry : List Char) : Read Unit :=
  if entry.any (fun c => c = '%' || c = '+' || c = '[' || c = ']') then .unmodelled
  else
    match (cutAt (fun c => c = ':') entry).2 with
    | none => .accepted ()
    | some x =>
      if x.2.any (fun c => c = ':') then .rejected
      else if x.2 = [] then .accepted ()
      else if portOK x.2 then .accepted ()
      else .rejected

/-- The loop over the host entries: empty entries are skipped, the others go
through `addHost` in order and are kept as written. -/
def addHosts : List (List Char) → Read (List String)
  | [] => .accepted []
  | e :: r =>
    if e = [] then addHosts r
    else
      match addHost e with
      | .rejected => .rejected
      | .unmodelled => .unmodelled
      | .accepted _ =>
        match addHosts r with
        | .accepted hs => .accepted (String.mk e :: hs)
        | .rejected => .rejected
        | .unmodelled => .unmodelled

/-- The user information (what stands before the first `@`): the user name ends
at the first colon, the rest is the password.  A slash in the user name, and a
colon or slash in the password, are refused.  Percent escapes and an empty user
name are not modelled. -/
def parseUserInfo (ui : List Char) : Read (String × Option String) :=
  if ui.any (fun c => c = '%') then .unmodelled
  else if (cutAt (fun c => c = ':') ui).1.any (fun c => c = '/') then .rejected
  else
    match (cutAt (fun c => c = ':') ui).2 with
    | none =>
      if ui = [] then .unmodelled else .accepted (String.mk ui, none)
    | some x =>
      if x.2.any (fun c => c = ':' || c = '/') then .rejected
      else if (cutAt (fun c => c = ':') ui).1 = [] then .unmodelled
      else .accepted (String.mk (cutAt (fun c => c = ':') ui).1, some (String.mk x.2))

/-- The host part (what follows the user information): it ends at the first
`/`; a `?` or a further `@` before that is refused; a database or option part
is not modelled; the entries between commas go through `addHosts`, and at least
one host is required. -/
def parseHosts (scheme : String) (userinfo : Option (String × Option String))
    (rest : List Char) : Read ConnString :=
  match (cutAt (fun c => c = '/' || c = '?' || c = '@') rest).2 with
  | some x => if x.1 = '/' then .unmodelled else .rejected
  | none =>
    match addHosts (splitComma rest) with
    | .accepted [] => .rejected
    | .accepted (h :: hs) => .accepted ⟨scheme, userinfo, h :: hs⟩
    | .rejected => .rejected
    | .unmodelled => .unmodelled

/-- The connection string as the driver's `connstring` code reads it: the scheme
must be `mongodb://` (a `mongodb+srv://` seed list needs DNS and is not
modelled), then the user information up to the first `@`, then the hosts. -/
def parseConnString (uri : String) : Read ConnString :=
  match stripLeading "mongodb+srv://".data uri.data with
  | some _ => .unmodelled
  | none =>
    match stripLeading "mongodb://".data uri.data with
    | none => .rejected
    | some rest =>
      match (cutAt (fun c => c = '@') rest).2 with
      | none => parseHosts "mongodb" none rest
      | some x =>
        match parseUserInfo (cutAt (fun c => c = '@') rest).1 with
        | .rejected => .rejected
        | .unmodelled => .unmodelled
        | .accepted cred => parseHosts "mongodb" (some cred) x.2

/-- A bare address: none of the characters that delimit or escape parts of a
connection string. -/
def PlainAddress (service : String) : Prop :=
  ∀ c ∈ service.data, c ≠ '@' ∧ c ≠ '/' ∧ c ≠ '?' ∧ c ≠ ',' ∧ c ≠ ':' ∧
    c ≠ '%' ∧ c ≠ '+' ∧ c ≠ '[' ∧ c ≠ ']'

/-! ## A reference store

The database behind the driver is not part of the repository.  The claims that
speak about the content of a collection are settled on this store, written from
the description of the store in the specification. -/

/-- Modelled from the spec: the document store behind the collection handle (the
database server; only the facade is in the repository).  A collection is the
sequence of its documents in natural scan order; `next` feeds the identifiers
that the store generates. -/
structure MemStore where
  docs : List D
  next : Nat

/-- Modelled from the spec: the store-generated identifier number `n`, a
fixed-width handle of twelve bytes (big-endian digits of `n`). -/
def ObjectID.ofNat (n : Nat) : ObjectID :=
  ⟨(List.range 12).map (fun i => Fin.ofNat (n / 256 ^ (11 - i))), by simp⟩

/-- Modelled from the spec: a filter is an equality predicate; a document
matches when every field of the filter is present with an equal value. -/
def matchesFilter (filter : Raw) (d : D) : Bool :=
  filter.all (fun f =>
    match lookup f.1 d with
    | some x => Value.beq x f.2
    | none => false)

/-- Modelled from the spec: single-document selection, the first match in the
natural order of the store, with the documents before and after it. -/
def findFirst (p : D → Bool) : List D → Option (List D × D × List D)
  | [] => none
  | d :: r =>
    if p d then some ([], d, r)
    else
      match findFirst p r with
      | none => none
      | some x => some (d :: x.1, x.2.1, x.2.2)

/-- A plain field name: not empty, no dot, no leading operator sign.  The
update language of the store reads every other name as a path or operator
expression. -/
def plainName (k : String) : Bool :=
  k.data != [] && k.data.head? != some '$' && k.data.all (fun c => c != '.')

mutual
/-- Whether every field name inside a value is a plain name. -/
def Value.plain : Value → Bool
  | .doc fs => Value.plainFields fs
  | .arr xs => Value.plainItems xs
  | _ => true
/-- Whether the names and values of nested fields are plain. -/
def Value.plainFields : List (String × Value) → Bool
  | [] => true
  | (k, v) :: r => plainName k && Value.plain v && Value.plainFields r
/-- Whether the items of a sequence are plain. -/
def Value.plainItems : List Value → Bool
  | [] => true
  | v :: r => Value.plain v && Value.plainItems r
end

/-- Modelled from the spec: setting one field named in the payload of the set
operator.  The field is overwritten as a whole (no merge of nested structures);
the identifier is immutable, so setting `_id` to another value is refused.  The
spec describes plain field names only: a name that is a path expression, or a
value with such names inside (whose storage depends on the version of the
store), is outside this model and answered with an error that says so. -/
def setField (d : D) (f : String × Value) : Except Err D :=
  if f.1 = "_id" then
    match lookup "_id" d with
    | some x =>
      if Value.beq x f.2 then .ok d else .error (.store "the identifier field is immutable")
    | none => .error (.store "the identifier field is immutable")
  else if plainName f.1 && Value.plain f.2 then .ok (assign f.1 f.2 d)
  else .error (.store "not modelled: field path")

/-- Modelled from the spec: the fields of a set payload, applied in order. -/
def setFields : List (String × Value) → D → Except Err D
  | [], d => .ok d
  | f :: r, d =>
    match setField d f with
    | .error e => .error e
    | .ok d2 => setFields r d2

/-- Modelled from the spec: one top-level key of an update specification.  Only
the set operator with a field-to-value payload is described by the spec; every
other key is refused by the store. -/
def applyOperator (d : D) (op : String × Value) : Except Err D :=
  if op.1 = "$set" then
    match op.2 with
    | .doc fs => setFields fs d
    | _ => .error (.store "the set operator needs a document payload")
  else .error (.store "unknown update operator")

/-- Modelled from the spec: an update specification, operator by operator. -/
def applyUpdate : Raw → D → Except Err D
  | [], d => .ok d
  | op :: r, d =>
    match applyOperator d op with
    | .error e => .error e
    | .ok d2 => applyUpdate r d2

/-- Modelled from the spec: single insert.  A document without identifier field
gets a store-generated one in front; a document that carries `_id` keeps it, and
that value is the inserted identifier.  An identifier already present in the
collection is a constraint violation: nothing is stored and no result comes
back. -/
def MemStore.insertOne (s : MemStore) (_ctx : Ctx) (doc : Raw) :
    (Option InsertOneResult × Option Err) × MemStore :=
  let id : Value :=
    match lookup "_id" doc with
    | some v => v
    | none => .oid (ObjectID.ofNat s.next)
  let stored : D :=
    match lookup "_id" doc with
    | some _ => doc
    | none => ("_id", id) :: doc
  if s.docs.any (matchesFilter [("_id", id)]) then
    ((none, some (.store "duplicate key")), s)
  else ((some ⟨id⟩, none), ⟨s.docs ++ [stored], s.next + 1⟩)

/-- Modelled from the spec: atomic find-and-update of at most one document,
answering with the document before or after the update as requested; no match
is reported as an error. -/
def MemStore.findOneAndUpdate (s : MemStore) (_ctx : Ctx) (filter update : Raw)
    (rd : ReturnDocument) : SingleResult × MemStore :=
  match findFirst (matchesFilter filter) s.docs with
  | none => (⟨some .ErrNoDocuments, .error .ErrNoDocuments⟩, s)
  | some x =>
    match applyUpdate update x.2.1 with
    | .error e => (⟨some e, .error e⟩, s)
    | .ok d2 =>
      (⟨none, .ok (match rd with
          | .After => d2
          | .Before => x.2.1)⟩,
        ⟨x.1 ++ d2 :: x.2.2, s.next⟩)

/-- Modelled from the spec: atomic find-and-delete of at most one document,
answering with its content before the deletion; no match is reported as an
error. -/
def MemStore.findOneAndDelete (s : MemStore) (_ctx : Ctx) (filter : Raw) :
    SingleResult × MemStore :=
  match findFirst (matchesFilter filter) s.docs with
  | none => (⟨some .ErrNoDocuments, .error .ErrNoDocuments⟩, s)
  | some x => (⟨none, .ok x.2.1⟩, ⟨x.1 ++ x.2.2, s.next⟩)

/-- Modelled from the spec: scan of the documents matching the filter, in
natural order; each document is materialised as a generic mapping. -/
def MemStore.find (s : MemStore) (_ctx : Ctx) (filter : Raw) :
    (Option Cursor × Option Err) × MemStore :=
  ((some ⟨.ok ((s.docs.filter (matchesFilter filter)).map D.Map)⟩, none), s)

/-- Modelled from the spec: the collection handle of the reference store. -/
def memCollection : Collection MemStore :=
  ⟨MemStore.insertOne, MemStore.findOneAndUpdate, MemStore.findOneAndDelete, MemStore.find⟩

/-- A collection whose server cannot be reached: every round trip runs into
the deadline of its context. -/
def unreachableCollection : Collection Unit :=
  ⟨fun s _ _ => ((none, some (.store "context deadline exceeded")), s),
   fun s _ _ _ _ =>
    (⟨some (.store "context deadline exceeded"), .error (.store "context deadline exceeded")⟩, s),
   fun s _ _ =>
    (⟨some (.store "context deadline exceeded"), .error (.store "context deadline exceeded")⟩, s),
   fun s _ _ => ((none, some (.store "context deadline exceeded")), s)⟩

/-- Pairwise distinct field names, as in every Go mapping. -/
def DistinctKeys (m : List (String × Value)) : Prop := (m.map Prod.fst).Nodup

/-- The documents held by a store have pairwise distinct field names. -/
def MemStore.WF (s : MemStore) : Prop := ∀ d ∈ s.docs, DistinctKeys d

/-- The document as the store holds it after an insert under identifier `I`:
the fields of `data`, with the identifier field in front unless `data` carries
its own. -/
def withID (data : M) (I : ObjectID) : D :=
  match lookup "_id" data with
  | some _ => data
  | none => ("_id", .oid I) :: data

instance (s : String) : Decidable (WellFormedID s) := by
  unfold WellFormedID; infer_instance

instance (service : String) : Decidable (PlainAddress service) := by
  unfold PlainAddress; infer_instance

instance (m : List (String × Value)) : Decidable (DistinctKeys m) := by
  unfold DistinctKeys; infer_instance

instance (s : MemStore) : Decidable s.WF := by
  unfold MemStore.WF; infer_instance

/-! ## Identifier strings -/

theorem fromHexChar_hexDigit (n : Nat) (h : n < 16) : fromHexChar (hexDigit n) = some n := by
  have key : ∀ m : Fin 16, fromHexChar (hexDigit m.val) = some m.val := by decide
  exact key ⟨n, h⟩

theorem utf8Size_of_hex (c : Char) (h : (fromHexChar c).isSome = true) : c.utf8Size = 1 := by
  have hle : c.toNat ≤ 127 := by
    unfold fromHexChar at h
    by_contra hc
    have e0 : '0'.toNat = 48 := rfl
    have e9 : '9'.toNat = 57 := rfl
    have ea : 'a'.toNat = 97 := rfl
    have ef : 'f'.toNat = 102 := rfl
    have eA : 'A'.toNat = 65 := rfl
    have eF : 'F'.toNat = 70 := rfl
    rw [e0, e9, ea, ef, eA, eF] at h
    split_ifs at h <;> first | omega | simp at h
  have h127 : c.val ≤ UInt32.ofNatCore 127 (by decide) := by
    show c.val.toNat ≤ 127
    exact hle
  unfold Char.utf8Size
  exact if_pos h127

theorem hexDecode_hexEncode (bs : List (Fin 256)) : hexDecode (hexEncode bs) = .ok bs := by
  induction bs with
  | nil => rfl
  | cons b rest ih =>
    have h1 : b.val / 16 < 16 := by have := b.isLt; omega
    have h2 : b.val % 16 < 16 := Nat.mod_lt _ (by decide)
    have h3 : (Fin.ofNat (b.val / 16 * 16 + b.val % 16) : Fin 256) = b := by
      apply Fin.ext
      show (b.val / 16 * 16 + b.val % 16) % 256 = b.val
      have := b.isLt
      omega
    simp only [hexEncode, hexDecode, fromHexChar_hexDigit _ h1, fromHexChar_hexDigit _ h2, ih, h3]

theorem hexDigit_isHex (n : Nat) (h : n < 16) : (fromHexChar (hexDigit n)).isSome = true := by
  rw [fromHexChar_hexDigit n h]; rfl

theorem utf8Len_hexEncode (bs : List (Fin 256)) :
    String.utf8ByteSize.go (hexEncode bs) = 2 * bs.length := by
  induction bs with
  | nil => rfl
  | cons b rest ih =>
    have h1 : b.val / 16 < 16 := by have := b.isLt; omega
    have h2 : b.val % 16 < 16 := Nat.mod_lt _ (by decide)
    simp only [hexEncode, String.utf8ByteSize.go, ih, utf8Size_of_hex _ (hexDigit_isHex _ h1),
      utf8Size_of_hex _ (hexDigit_isHex _ h2), List.length_cons]
    omega

theorem ObjectIDFromHex_Hex (o : ObjectID) : ObjectIDFromHex o.Hex = .ok o := by
  have hsize : o.Hex.utf8ByteSize = 24 := by
    show String.utf8ByteSize.go (hexEncode o.bytes) = 24
    rw [utf8Len_hexEncode, o.len]
  unfold ObjectIDFromHex
  rw [if_neg (by simp [hsize])]
  show (match hexDecode (hexEncode o.bytes) with
    | .error e => Except.error e
    | .ok bs => if h : bs.length = 12 then Except.ok (ObjectID.mk bs h)
        else Except.error Err.ErrInvalidHex) = _
  rw [hexDecode_hexEncode]
  simp [o.len]

theorem hexDecode_ok : ∀ (cs : List Char) (bs : List (Fin 256)), hexDecode cs = .ok bs →
      (∀ c ∈ cs, (fromHexChar c).isSome = true) ∧ cs.length = 2 * bs.length
  | [], bs, h => by
    simp only [hexDecode, Except.ok.injEq] at h
    subst h
    simp
  | [c], bs, h => by
    simp only [hexDecode] at h
    split at h <;> simp at h
  | p :: q :: rest, bs, h => by
    simp only [hexDecode] at h
    split at h
    · simp at h
    · rename_i a ha
      split at h
      · simp at h
      · rename_i b hb
        split at h
        · simp at h
        · rename_i bs0 hbs
          simp only [Except.ok.injEq] at h
          subst h
          obtain ⟨i1, i2⟩ := hexDecode_ok rest bs0 hbs
          refine ⟨?_, ?_⟩
          · intro c hc
            simp only [List.mem_cons] at hc
            rcases hc with rfl | rfl | hc
            · simp [ha]
            · simp [hb]
            · exact i1 c hc
          · simp only [List.length_cons, i2]
            omega

theorem utf8Len_of_hex (cs : List Char) (h : ∀ c ∈ cs, (fromHexChar c).isSome = true) :
    String.utf8ByteSize.go cs = cs.length := by
  induction cs with
  | nil => rfl
  | cons c r ih =>
    simp only [String.utf8ByteSize.go, List.length_cons]
    rw [ih (fun x hx => h x (List.mem_cons_of_mem _ hx)), utf8Size_of_hex c (h c (List.mem_cons_self _ _))]

theorem ObjectIDFromHex_ok_wellFormed (s : String) (o : ObjectID)
    (h : ObjectIDFromHex s = .ok o) : WellFormedID s := by
  unfold ObjectIDFromHex at h
  split at h
  · simp at h
  · rename_i hsz
    split at h
    · simp at h
    · rename_i bs hbs
      obtain ⟨i1, i2⟩ := hexDecode_ok _ _ hbs
      refine ⟨?_, i1⟩
      have h3 : s.utf8ByteSize = s.data.length := utf8Len_of_hex s.data i1
      have h4 : s.utf8ByteSize = 24 := by
        by_contra hc
        exact hsz hc
      show s.data.length = 24
      omega

theorem hexDecode_of_hex : ∀ (cs : List Char), (∀ c ∈ cs, (fromHexChar c).isSome = true) →
    cs.length % 2 = 0 → ∃ bs, hexDecode cs = .ok bs ∧ cs.length = 2 * bs.length
  | [], _, _ => ⟨[], rfl, rfl⟩
  | [c], _, h => by simp at h
  | p :: q :: rest, hall, hlen => by
    have hp := hall p (by simp)
    have hq := hall q (by simp)
    have hrest : ∀ c ∈ rest, (fromHexChar c).isSome = true :=
      fun c hc => hall c (by simp [hc])
    have hl : rest.length % 2 = 0 := by
      simp only [List.length_cons] at hlen
      omega
    obtain ⟨bs, hbs, hlen2⟩ := hexDecode_of_hex rest hrest hl
    obtain ⟨a, ha⟩ := Option.isSome_iff_exists.1 hp
    obtain ⟨b, hb⟩ := Option.isSome_iff_exists.1 hq
    refine ⟨Fin.ofNat (a * 16 + b) :: bs, ?_, ?_⟩
    · simp only [hexDecode, ha, hb, hbs]
    · simp only [List.length_cons, hlen2]
      omega

theorem ObjectIDFromHex_of_wellFormed (s : String) (h : WellFormedID s) :
    ∃ o, ObjectIDFromHex s = .ok o := by
  obtain ⟨hlen, hall⟩ := h
  have hlen2 : s.data.length = 24 := hlen
  obtain ⟨bs, hbs, hl⟩ := hexDecode_of_hex s.data hall (by rw [hlen2])
  have hsz : s.utf8ByteSize = 24 := by
    have : s.utf8ByteSize = s.data.length := utf8Len_of_hex s.data hall
    omega
  have hb : bs.length = 12 := by omega
  refine ⟨⟨bs, hb⟩, ?_⟩
  unfold ObjectIDFromHex
  rw [if_neg (by simp [hsz])]
  simp only [hbs]
  simp [hb]

/-! ## Mappings and the reference store -/

theorem lookup_assign_same (k : String) (v : Value) (d : List (String × Value)) :
    lookup k (assign k v d) = some v := by
  induction d with
  | nil => simp [assign, lookup]
  | cons f r ih =>
    obtain ⟨k2, v2⟩ := f
    by_cases h : k2 = k
    · simp [assign, lookup, h]
    · simp [assign, lookup, h, ih]

theorem lookup_assign_other (k k2 : String) (v : Value) (d : List (String × Value))
    (h : k2 ≠ k) : lookup k2 (assign k v d) = lookup k2 d := by
  induction d with
  | nil => simp [assign, lookup, Ne.symm h]
  | cons f r ih =>
    obtain ⟨k3, v3⟩ := f
    by_cases h3 : k3 = k
    · subst h3
      simp [assign, lookup, Ne.symm h]
    · by_cases h4 : k3 = k2
      · subst h4
        simp [assign, lookup, h3]
      · simp [assign, lookup, h3, h4, ih]

theorem lookup_eq_none (k : String) (d : List (String × Value)) :
    lookup k d = none ↔ k ∉ d.map Prod.fst := by
  induction d with
  | nil => simp [lookup]
  | cons f r ih =>
    obtain ⟨k2, v2⟩ := f
    by_cases h : k2 = k
    · simp [lookup, h]
    · simp [lookup, h, ih, Ne.symm h]

theorem assign_of_not_mem (k : String) (v : Value) (d : List (String × Value))
    (h : k ∉ d.map Prod.fst) : assign k v d = d ++ [(k, v)] := by
  induction d with
  | nil => rfl
  | cons f r ih =>
    obtain ⟨k2, v2⟩ := f
    simp only [List.map_cons, List.mem_cons, not_or] at h
    simp [assign, Ne.symm h.1, ih h.2]

theorem keys_assign (k : String) (v : Value) (d : List (String × Value)) :
    (assign k v d).map Prod.fst =
      if k ∈ d.map Prod.fst then d.map Prod.fst else d.map Prod.fst ++ [k] := by
  induction d with
  | nil => simp [assign]
  | cons f r ih =>
    obtain ⟨k2, v2⟩ := f
    by_cases h : k2 = k
    · simp [assign, h]
    · simp only [assign, h, if_false, List.map_cons, ih, List.mem_cons, Ne.symm h, false_or]
      split <;> simp

theorem distinct_assign (k : String) (v : Value) (d : List (String × Value))
    (h : DistinctKeys d) : DistinctKeys (assign k v d) := by
  unfold DistinctKeys at *
  rw [keys_assign]
  split
  · exact h
  · rename_i hk
    rw [List.nodup_append]
    refine ⟨h, by simp, ?_⟩
    intro a ha hb
    simp at hb
    subst hb
    exact hk ha

theorem foldl_assign (d acc : List (String × Value))
    (h : ((acc ++ d).map Prod.fst).Nodup) :
    d.foldl (fun m e => assign e.1 e.2 m) acc = acc ++ d := by
  induction d generalizing acc with
  | nil => simp
  | cons f r ih =>
    have hf : f.1 ∉ acc.map Prod.fst := by
      intro hc
      rw [List.map_append, List.nodup_append] at h
      exact h.2.2 hc (by simp)
    simp only [List.foldl_cons]
    rw [assign_of_not_mem _ _ _ hf, ih]
    · simp
    · simpa using h

theorem Map_of_distinct (d : D) (h : DistinctKeys d) : D.Map d = d := by
  unfold D.Map
  rw [foldl_assign d [] (by simpa using h)]
  simp

theorem findFirst_append_last (p : D → Bool) (l : List D) (d : D)
    (h1 : l.any p = false) (h2 : p d = true) :
    findFirst p (l ++ [d]) = some (l, d, []) := by
  induction l with
  | nil => simp [findFirst, h2]
  | cons x r ih =>
    simp only [List.any_cons, Bool.or_eq_false_iff] at h1
    simp [findFirst, h1.1, ih h1.2]

theorem filter_matches_nil (l : List D) : l.filter (matchesFilter []) = l := by
  apply List.filter_eq_self.2
  intro d _
  rfl

theorem matches_id (I : ObjectID) (d : D) :
    matchesFilter [("_id", .oid I)] d = true ↔ lookup "_id" d = some (.oid I) := by
  unfold matchesFilter
  simp only [List.all_cons, List.all_nil, Bool.and_true]
  cases h : lookup "_id" d with
  | none => simp
  | some x =>
    cases x <;> simp [Value.beq]

/-! ## Helper facts about the facade -/

theorem ObjectIDFromHex_malformed (s : String) (h : ¬ WellFormedID s) :
    ∃ e, ObjectIDFromHex s = .error e := by
  cases hr : ObjectIDFromHex s with
  | error e => exact ⟨e, rfl⟩
  | ok o => exact absurd (ObjectIDFromHex_ok_wellFormed s o hr) h

theorem Marshal_id (o : ObjectID) :
    Marshal [("_id", Value.oid o)] = .ok [("_id", Value.oid o)] := by
  have hk : keyEncodable "_id" = true := by decide
  simp [Marshal, Value.encodableFields, Value.encodable, hk]

theorem Marshal_ok (m : M) (u : Raw) (h : Marshal m = .ok u) : u = m := by
  unfold Marshal at h
  split at h
  · simp only [Except.ok.injEq] at h
    exact h.symm
  · simp at h

theorem jsonToBson_eq_Marshal (m : M) : jsonToBson m = Marshal m := by
  unfold jsonToBson; cases Marshal m <;> rfl

/-! ## Insert -/

/-- C1 (the code breaks the claim): when the document encodes and the round trip
of `InsertOne` comes back with an error and no result, `Add` does not return
that error: it dereferences the nil result and panics. -/
theorem Add_insert_error_panics {σ : Type} (collection : Collection σ) (w : World σ)
    (data : M) (doc : Raw) (e : Err)
    (henc : jsonToBson data = .ok doc)
    (hins : (collection.insertOne w.store defaultContext doc).1 = (none, some e)) :
    (Add collection data w).1 = .panic .nilDereference := by
  simp [Add, henc, Collection.InsertOne, transformBsoncoreDocument, hins]

theorem Add_insert_error_panics_witness :
    jsonToBson [("item", Value.str "a")] = .ok [("item", Value.str "a")] ∧
    (unreachableCollection.insertOne () defaultContext [("item", Value.str "a")]).1
      = (none, some (Err.store "context deadline exceeded")) ∧
    (Add unreachableCollection [("item", Value.str "a")] ⟨(), []⟩).1
      = .panic .nilDereference :=
  ⟨rfl, rfl, Add_insert_error_panics unreachableCollection ⟨(), []⟩ [("item", Value.str "a")]
    [("item", Value.str "a")] (Err.store "context deadline exceeded") rfl rfl⟩

/-! ## Malformed identifiers and encoding failures -/

/-- C2: for an identifier string that is not exactly 24 hexadecimal characters,
`UpdateByID` and `RemoveByID` return a nil document with the error of the
identifier decoding, and the run state is untouched: the store is unchanged and
no round trip has been logged. -/
theorem byID_malformed_identifier {σ : Type} (collection : Collection σ) (w : World σ)
    (ID : String) (update : M) (h : ¬ WellFormedID ID) :
    ∃ e, ObjectIDFromHex ID = .error e ∧
      UpdateByID collection ID update w = (.ret none (some e), w) ∧
      RemoveByID collection ID w = (.ret none (some e), w) := by
  obtain ⟨e, he⟩ := ObjectIDFromHex_malformed ID h
  exact ⟨e, he, by simp [UpdateByID, he], by simp [RemoveByID, he]⟩

theorem byID_malformed_identifier_witness :
    ¬ WellFormedID "xyz" ∧
    ∃ e, ObjectIDFromHex "xyz" = .error e ∧
      UpdateByID memCollection "xyz" [("$set", .doc [("item", .str "b")])] ⟨⟨[], 0⟩, []⟩
        = (.ret none (some e), ⟨⟨[], 0⟩, []⟩) ∧
      RemoveByID memCollection "xyz" ⟨⟨[], 0⟩, []⟩ = (.ret none (some e), ⟨⟨[], 0⟩, []⟩) :=
  ⟨by decide, byID_malformed_identifier memCollection ⟨⟨[], 0⟩, []⟩ "xyz"
    [("$set", .doc [("item", .str "b")])] (by decide)⟩

/-- C3: in `Add`, `Update`, `UpdateByID` and `Remove`, a conversion of a mapping
argument that fails with `e` makes the operation return `e` with the empty
result (the empty string for `Add`, nil for the others) and leaves the run state
untouched: the store is unchanged and no round trip has been logged.  For
`Update` this covers the filter and, once the filter is converted, the update
specification; for `UpdateByID` the update specification once the identifier is
decoded. -/
theorem encoding_failure_aborts {σ : Type} (collection : Collection σ) (w : World σ)
    (e : Err) :
    (∀ data : M, jsonToBson data = .error e →
      Add collection data w = (.ret "" (some e), w)) ∧
    (∀ filter update : M, jsonToBson filter = .error e →
      Update collection filter update w = (.ret none (some e), w)) ∧
    (∀ (filter update : M) (filterDoc : Raw), jsonToBson filter = .ok filterDoc →
      jsonToBson update = .error e →
      Update collection filter update w = (.ret none (some e), w)) ∧
    (∀ (ID : String) (objectID : ObjectID) (update : M),
      ObjectIDFromHex ID = .ok objectID → jsonToBson update = .error e →
      UpdateByID collection ID update w = (.ret none (some e), w)) ∧
    (∀ filter : M, jsonToBson filter = .error e →
      Remove collection filter w = (.ret none (some e), w)) := by
  refine ⟨?_, ?_, ?_, ?_, ?_⟩
  · intro data h; simp [Add, h]
  · intro filter update h; simp [Update, h]
  · intro filter update filterDoc h1 h2; simp [Update, h1, h2]
  · intro ID objectID update h1 h2; simp [UpdateByID, h1, h2]
  · intro filter h; simp [Remove, h]

theorem encoding_failure_aborts_witness :
    jsonToBson [("item", Value.chan)] = .error .ErrNoEncoder ∧
    Add memCollection [("item", Value.chan)] ⟨⟨[], 0⟩, []⟩
      = (.ret "" (some .ErrNoEncoder), ⟨⟨[], 0⟩, []⟩) ∧
    Update memCollection [("item", .str "a")] [("$set", .doc [("item", .chan)])]
        ⟨⟨[], 0⟩, []⟩
      = (.ret none (some .ErrNoEncoder), ⟨⟨[], 0⟩, []⟩) ∧
    UpdateByID memCollection "000000000000000000000000" [("$set", .doc [("item", .chan)])]
        ⟨⟨[], 0⟩, []⟩
      = (.ret none (some .ErrNoEncoder), ⟨⟨[], 0⟩, []⟩) ∧
    Remove memCollection [("item", Value.chan)] ⟨⟨[], 0⟩, []⟩
      = (.ret none (some .ErrNoEncoder), ⟨⟨[], 0⟩, []⟩) :=
  ⟨rfl,
   (encoding_failure_aborts memCollection ⟨⟨[], 0⟩, []⟩ .ErrNoEncoder).1
      [("item", Value.chan)] rfl,
   (encoding_failure_aborts memCollection ⟨⟨[], 0⟩, []⟩ .ErrNoEncoder).2.2.1
      [("item", .str "a")] [("$set", .doc [("item", .chan)])] [("item", .str "a")] rfl rfl,
   (encoding_failure_aborts memCollection ⟨⟨[], 0⟩, []⟩ .ErrNoEncoder).2.2.2.1
      "000000000000000000000000" (ObjectID.ofNat 0) [("$set", .doc [("item", .chan)])]
      rfl rfl,
   (encoding_failure_aborts memCollection ⟨⟨[], 0⟩, []⟩ .ErrNoEncoder).2.2.2.2
      [("item", Value.chan)] rfl⟩

/-! ## Insert: the returned identifier -/

/-- C4 (refuted as stated): a document that carries its own identifier field of
string type encodes and is accepted by the store, yet `Add` does not return an
identifier: the type assertion on the inserted identifier fails and `Add`
panics, after the document has been stored. -/
theorem Add_own_string_id_panics :
    jsonToBson [("_id", Value.str "abc")] = .ok [("_id", Value.str "abc")] ∧
    (memCollection.insertOne ⟨[], 0⟩ defaultContext [("_id", Value.str "abc")]).1.2 = none ∧
    (Add memCollection [("_id", Value.str "abc")] ⟨⟨[], 0⟩, []⟩).1 = .panic .typeAssertion ∧
    (Add memCollection [("_id", Value.str "abc")] ⟨⟨[], 0⟩, []⟩).2.store.docs
      = [[("_id", Value.str "abc")]] :=
  ⟨rfl, rfl, rfl, rfl⟩

/-- C4 (amended): when the document encodes and the store accepts the insert
with an inserted identifier that is an `ObjectID`, `Add` returns no error and
the identifier in hexadecimal: a string of exactly 24 hexadecimal characters
that the identifier decoding of `UpdateByID` and `RemoveByID` maps back to the
same identifier. -/
theorem Add_returns_hex_identifier {σ : Type} (collection : Collection σ) (w : World σ)
    (data : M) (doc : Raw) (objectID : ObjectID)
    (henc : jsonToBson data = .ok doc)
    (hins : (collection.insertOne w.store defaultContext doc).1
      = (some ⟨.oid objectID⟩, none)) :
    (Add collection data w).1 = .ret objectID.Hex none ∧
      WellFormedID objectID.Hex ∧ ObjectIDFromHex objectID.Hex = .ok objectID := by
  refine ⟨?_, ObjectIDFromHex_ok_wellFormed _ _ (ObjectIDFromHex_Hex objectID),
    ObjectIDFromHex_Hex objectID⟩
  simp [Add, henc, Collection.InsertOne, transformBsoncoreDocument, hins]

theorem Add_returns_hex_identifier_witness :
    jsonToBson [("item", Value.str "a")] = .ok [("item", Value.str "a")] ∧
    (memCollection.insertOne ⟨[], 258⟩ defaultContext [("item", Value.str "a")]).1
      = (some ⟨.oid (ObjectID.ofNat 258)⟩, none) ∧
    ((Add memCollection [("item", Value.str "a")] ⟨⟨[], 258⟩, []⟩).1
        = .ret (ObjectID.ofNat 258).Hex none ∧
      WellFormedID (ObjectID.ofNat 258).Hex ∧
      ObjectIDFromHex (ObjectID.ofNat 258).Hex = .ok (ObjectID.ofNat 258)) :=
  ⟨rfl, rfl, Add_returns_hex_identifier memCollection ⟨⟨[], 258⟩, []⟩
    [("item", Value.str "a")] [("item", Value.str "a")] (ObjectID.ofNat 258) rfl rfl⟩

/-! ## Insert followed by an operation by identifier, on the reference store -/

theorem Add_mem_inv (s : MemStore) (log : List Call) (data : M) (X : String)
    (w1 : World MemStore)
    (h : Add memCollection data ⟨s, log⟩ = (.ret X none, w1)) :
    ∃ I : ObjectID, X = I.Hex ∧ lookup "_id" (withID data I) = some (.oid I) ∧
      s.docs.any (matchesFilter [("_id", .oid I)]) = false ∧
      w1 = ⟨⟨s.docs ++ [withID data I], s.next + 1⟩, log ++ [Call.InsertOne defaultContext data]⟩ := by
  unfold Add at h
  rw [jsonToBson_eq_Marshal] at h
  unfold Marshal at h
  by_cases henc : Value.encodableFields data = true
  · simp only [henc, if_true, Collection.InsertOne, transformBsoncoreDocument, memCollection,
      MemStore.insertOne] at h
    cases hl : lookup "_id" data with
    | none =>
      simp only [hl] at h
      by_cases hany : s.docs.any (matchesFilter [("_id", Value.oid (ObjectID.ofNat s.next))]) = true
      · simp [hany] at h
      · simp only [hany] at h
        simp at h
        refine ⟨ObjectID.ofNat s.next, h.1.symm, ?_, by simpa using hany, ?_⟩
        · simp [withID, hl, lookup]
        · rw [← h.2]; simp [withID, hl]
    | some v =>
      simp only [hl] at h
      by_cases hany : s.docs.any (matchesFilter [("_id", v)]) = true
      · simp [hany] at h
      · simp only [hany] at h
        cases v with
        | oid I =>
          simp at h
          refine ⟨I, h.1.symm, ?_, by simpa using hany, ?_⟩
          · simp [withID, hl]
          · rw [← h.2]; simp [withID, hl]
        | _ => simp at h
  · simp [henc] at h

theorem distinct_withID (data : M) (I : ObjectID) (h : DistinctKeys data) :
    DistinctKeys (withID data I) := by
  unfold withID
  cases hl : lookup "_id" data with
  | some v => exact h
  | none =>
    have := (lookup_eq_none "_id" data).1 hl
    unfold DistinctKeys at *
    simp only [List.map_cons, List.nodup_cons]
    exact ⟨this, h⟩

theorem lookup_withID (data : M) (I : ObjectID) (k : String) (hk : k ≠ "_id") :
    lookup k (withID data I) = lookup k data := by
  unfold withID
  cases hl : lookup "_id" data with
  | some v => rfl
  | none => simp [lookup, Ne.symm hk]

/-- C5 (refuted as stated): after `Add` of the test document has returned an
identifier, `UpdateByID` with a set payload whose value has no binary encoding,
or whose field name contains a NUL byte, returns the encoding error, and a set
payload that names the identifier field with another value is refused by the
store: in all three runs no document comes back. -/
theorem UpdateByID_after_Add_can_fail :
    (Add memCollection [("item", Value.str "a")] ⟨⟨[], 0⟩, []⟩).1
      = .ret "000000000000000000000000" none ∧
    (UpdateByID memCollection "000000000000000000000000"
        [("$set", .doc [("item", Value.chan)])]
        (Add memCollection [("item", Value.str "a")] ⟨⟨[], 0⟩, []⟩).2).1
      = .ret none (some .ErrNoEncoder) ∧
    (UpdateByID memCollection "000000000000000000000000"
        [("$set", .doc [("a\x00b", Value.str "x")])]
        (Add memCollection [("item", Value.str "a")] ⟨⟨[], 0⟩, []⟩).2).1
      = .ret none (some .ErrNoEncoder) ∧
    (UpdateByID memCollection "000000000000000000000000"
        [("$set", .doc [("_id", Value.str "b")])]
        (Add memCollection [("item", Value.str "a")] ⟨⟨[], 0⟩, []⟩).2).1
      = .ret none (some (.store "the identifier field is immutable")) :=
  ⟨by decide, rfl, rfl, rfl⟩

/-- C5 (amended): on the reference store, for a mapping `data` (distinct keys),
a plain field name `F` other than the identifier field and a value `V` with
plain field names inside, such that the update specification with the set
payload of `F` and `V` encodes: if `Add data` returns identifier `X` without
error, then `UpdateByID` with that update specification returns without error a
mapping `m` in which `F` is `V`, the identifier is the one `X` renders, and
every other field of `data` is as it was; `m` is the document the store holds
after the update. -/
theorem UpdateByID_after_Add_sets_field (s : MemStore) (log : List Call) (data : M)
    (X : String) (w1 : World MemStore) (F : String) (V : Value) (u : Raw)
    (hkeys : DistinctKeys data)
    (hadd : Add memCollection data ⟨s, log⟩ = (.ret X none, w1))
    (hF : F ≠ "_id") (hname : plainName F = true) (hV : Value.plain V = true)
    (henc : jsonToBson [("$set", .doc [(F, V)])] = .ok u) :
    ∃ (I : ObjectID) (m : M), X = I.Hex ∧
      (UpdateByID memCollection X [("$set", .doc [(F, V)])] w1).1 = .ret (some m) none ∧
      m = assign F V (withID data I) ∧
      lookup F m = some V ∧
      lookup "_id" m = some (.oid I) ∧
      (∀ k, k ≠ F → k ≠ "_id" → lookup k m = lookup k data) ∧
      (UpdateByID memCollection X [("$set", .doc [(F, V)])] w1).2.store.docs = s.docs ++ [m] := by
  obtain ⟨I, hX, hid, hany, hw1⟩ := Add_mem_inv s log data X w1 hadd
  have hmatch : matchesFilter [("_id", .oid I)] (withID data I) = true := (matches_id I _).2 hid
  have hff := findFirst_append_last (matchesFilter [("_id", .oid I)]) s.docs (withID data I)
    hany hmatch
  have hmap : D.Map (assign F V (withID data I)) = assign F V (withID data I) :=
    Map_of_distinct _ (distinct_assign F V _ (distinct_withID data I hkeys))
  have hu : u = [("$set", .doc [(F, V)])] := by
    rw [jsonToBson_eq_Marshal] at henc
    exact Marshal_ok _ _ henc
  subst hu
  have hupd : UpdateByID memCollection X [("$set", .doc [(F, V)])] w1 =
      (.ret (some (assign F V (withID data I))) none,
        ⟨⟨s.docs ++ [assign F V (withID data I)], s.next + 1⟩,
          log ++ [Call.InsertOne defaultContext data] ++
            [Call.FindOneAndUpdate defaultContext [("_id", .oid I)]
              [("$set", .doc [(F, V)])] .After]⟩) := by
    subst hX hw1
    simp [UpdateByID, ObjectIDFromHex_Hex, henc,
      Collection.FindOneAndUpdate, transformBsoncoreDocument, Marshal_id, memCollection,
      MemStore.findOneAndUpdate, hff, applyUpdate, applyOperator, setFields, setField, hF,
      hname, hV, SingleResult.Err, SingleResult.Decode, hmap]
  refine ⟨I, assign F V (withID data I), hX, by rw [hupd], rfl, lookup_assign_same F V _, ?_,
    ?_, by rw [hupd]⟩
  · rw [lookup_assign_other F "_id" V _ (Ne.symm hF)]
    exact hid
  · intro k hk hk2
    rw [lookup_assign_other F k V _ hk, lookup_withID data I k hk2]

theorem UpdateByID_after_Add_sets_field_witness :
    DistinctKeys [("item", Value.str "a"), ("n", Value.int 1)] ∧
    Add memCollection [("item", Value.str "a"), ("n", Value.int 1)] ⟨⟨[], 0⟩, []⟩
      = (.ret "000000000000000000000000" none,
          ⟨⟨[[("_id", .oid (ObjectID.ofNat 0)), ("item", .str "a"), ("n", .int 1)]], 1⟩,
            [Call.InsertOne defaultContext [("item", .str "a"), ("n", .int 1)]]⟩) ∧
    "item" ≠ "_id" ∧ plainName "item" = true ∧ Value.plain (Value.str "b") = true ∧
    jsonToBson [("$set", .doc [("item", Value.str "b")])]
      = .ok [("$set", .doc [("item", Value.str "b")])] ∧
    ∃ (I : ObjectID) (m : M), "000000000000000000000000" = I.Hex ∧
      (UpdateByID memCollection "000000000000000000000000"
          [("$set", .doc [("item", Value.str "b")])]
          ⟨⟨[[("_id", .oid (ObjectID.ofNat 0)), ("item", .str "a"), ("n", .int 1)]], 1⟩,
            [Call.InsertOne defaultContext [("item", .str "a"), ("n", .int 1)]]⟩).1
        = .ret (some m) none ∧
      m = assign "item" (Value.str "b")
            (withID [("item", Value.str "a"), ("n", Value.int 1)] I) ∧
      lookup "item" m = some (Value.str "b") ∧
      lookup "_id" m = some (.oid I) ∧
      (∀ k, k ≠ "item" → k ≠ "_id" →
        lookup k m = lookup k [("item", Value.str "a"), ("n", Value.int 1)]) ∧
      (UpdateByID memCollection "000000000000000000000000"
          [("$set", .doc [("item", Value.str "b")])]
          ⟨⟨[[("_id", .oid (ObjectID.ofNat 0)), ("item", .str "a"), ("n", .int 1)]], 1⟩,
            [Call.InsertOne defaultContext [("item", .str "a"), ("n", .int 1)]]⟩).2.store.docs
        = [] ++ [m] :=
  ⟨by decide, rfl, by decide, rfl, rfl, rfl,
    UpdateByID_after_Add_sets_field ⟨[], 0⟩ [] [("item", Value.str "a"), ("n", Value.int 1)]
      "000000000000000000000000" _ "item" (Value.str "b") _ (by decide) rfl (by decide)
      rfl rfl rfl⟩

/-- C6: on the reference store (documents with distinct field names), for a
mapping `data` (distinct keys): if `Add data` returns identifier `X` without
error, then `RemoveByID X` returns without error the document as it was stored
(the fields of `data` with identifier `X`), the collection is back to the
documents it held before the insert, so that exactly the inserted document is
gone, and a following `GetAll` returns those documents, none of which has
identifier `X`. -/
theorem RemoveByID_after_Add (s : MemStore) (log : List Call) (data : M) (X : String)
    (w1 : World MemStore) (hwf : s.WF) (hkeys : DistinctKeys data)
    (hadd : Add memCollection data ⟨s, log⟩ = (.ret X none, w1)) :
    ∃ I : ObjectID, X = I.Hex ∧
      lookup "_id" (withID data I) = some (.oid I) ∧
      w1.store.docs = s.docs ++ [withID data I] ∧
      (RemoveByID memCollection X w1).1 = .ret (some (withID data I)) none ∧
      (RemoveByID memCollection X w1).2.store.docs = s.docs ∧
      (GetAll memCollection (RemoveByID memCollection X w1).2).1 = .ret (some s.docs) none ∧
      ∀ m ∈ s.docs, lookup "_id" m ≠ some (.oid I) := by
  obtain ⟨I, hX, hid, hany, hw1⟩ := Add_mem_inv s log data X w1 hadd
  have hmatch : matchesFilter [("_id", .oid I)] (withID data I) = true := (matches_id I _).2 hid
  have hff := findFirst_append_last (matchesFilter [("_id", .oid I)]) s.docs (withID data I)
    hany hmatch
  have hmap : D.Map (withID data I) = withID data I :=
    Map_of_distinct _ (distinct_withID data I hkeys)
  have hmaps : s.docs.map D.Map = s.docs := by
    conv_rhs => rw [← List.map_id s.docs]
    apply List.map_congr_left
    intro d hd
    exact Map_of_distinct d (hwf d hd)
  have hrem : RemoveByID memCollection X w1 =
      (.ret (some (withID data I)) none,
        ⟨⟨s.docs, s.next + 1⟩, log ++ [Call.InsertOne defaultContext data] ++
          [Call.FindOneAndDelete defaultContext [("_id", .oid I)]]⟩) := by
    subst hX hw1
    simp [RemoveByID, ObjectIDFromHex_Hex, Collection.FindOneAndDelete,
      transformBsoncoreDocument, Marshal_id, memCollection, MemStore.findOneAndDelete, hff,
      SingleResult.Err, SingleResult.Decode, hmap]
  refine ⟨I, hX, hid, by rw [hw1], by rw [hrem], by rw [hrem], ?_, ?_⟩
  · rw [hrem]
    simp [GetAll, Collection.Find, transformBsoncoreDocument, Marshal, Value.encodableFields,
      memCollection, MemStore.find, Cursor.All, filter_matches_nil, hmaps]
  · intro m hm hc
    have h1 := (matches_id I m).2 hc
    have h2 : matchesFilter [("_id", .oid I)] m = false := by
      have := hany
      rw [List.any_eq_false] at this
      simpa using this m hm
    rw [h1] at h2
    exact Bool.noConfusion h2

theorem RemoveByID_after_Add_witness :
    MemStore.WF ⟨[[("_id", .oid (ObjectID.ofNat 7)), ("item", .str "z")]], 8⟩ ∧
    DistinctKeys [("item", Value.str "a")] ∧
    Add memCollection [("item", Value.str "a")]
        ⟨⟨[[("_id", .oid (ObjectID.ofNat 7)), ("item", .str "z")]], 8⟩, []⟩
      = (.ret "000000000000000000000008" none,
          ⟨⟨[[("_id", .oid (ObjectID.ofNat 7)), ("item", .str "z")],
              [("_id", .oid (ObjectID.ofNat 8)), ("item", .str "a")]], 9⟩,
            [Call.InsertOne defaultContext [("item", .str "a")]]⟩) ∧
    ∃ I : ObjectID, "000000000000000000000008" = I.Hex ∧
      lookup "_id" (withID [("item", Value.str "a")] I) = some (.oid I) ∧
      (⟨[[("_id", .oid (ObjectID.ofNat 7)), ("item", .str "z")],
          [("_id", .oid (ObjectID.ofNat 8)), ("item", .str "a")]], 9⟩ : MemStore).docs
        = [[("_id", .oid (ObjectID.ofNat 7)), ("item", .str "z")]]
            ++ [withID [("item", Value.str "a")] I] ∧
      (RemoveByID memCollection "000000000000000000000008"
          ⟨⟨[[("_id", .oid (ObjectID.ofNat 7)), ("item", .str "z")],
              [("_id", .oid (ObjectID.ofNat 8)), ("item", .str "a")]], 9⟩,
            [Call.InsertOne defaultContext [("item", .str "a")]]⟩).1
        = .ret (some (withID [("item", Value.str "a")] I)) none ∧
      (RemoveByID memCollection "000000000000000000000008"
          ⟨⟨[[("_id", .oid (ObjectID.ofNat 7)), ("item", .str "z")],
              [("_id", .oid (ObjectID.ofNat 8)), ("item", .str "a")]], 9⟩,
            [Call.InsertOne defaultContext [("item", .str "a")]]⟩).2.store.docs
        = [[("_id", .oid (ObjectID.ofNat 7)), ("item", .str "z")]] ∧
      (GetAll memCollection
          (RemoveByID memCollection "000000000000000000000008"
            ⟨⟨[[("_id", .oid (ObjectID.ofNat 7)), ("item", .str "z")],
                [("_id", .oid (ObjectID.ofNat 8)), ("item", .str "a")]], 9⟩,
              [Call.InsertOne defaultContext [("item", .str "a")]]⟩).2).1
        = .ret (some [[("_id", .oid (ObjectID.ofNat 7)), ("item", .str "z")]]) none ∧
      ∀ m ∈ [[("_id", Value.oid (ObjectID.ofNat 7)), ("item", Value.str "z")]],
        lookup "_id" m ≠ some (.oid I) :=
  ⟨by decide, by decide, rfl,
    RemoveByID_after_Add ⟨[[("_id", .oid (ObjectID.ofNat 7)), ("item", .str "z")]], 8⟩ []
      [("item", Value.str "a")] "000000000000000000000008" _ (by decide) (by decide) rfl⟩

/-! ## Errors of the find-and-modify round trips -/

/-- C7: in `Update`, `UpdateByID`, `Remove` and `RemoveByID`, when the round trip
of the find-and-update or find-and-delete reports an error `e`, the operation
returns exactly nil and `e`; the log grows by that one round trip (no retry) and
the store is what that round trip left. -/
theorem store_error_returned_verbatim {σ : Type} (collection : Collection σ) (w : World σ)
    (e : Err) :
    (∀ (filter update : M) (f u : Raw), jsonToBson filter = .ok f → jsonToBson update = .ok u →
      (collection.findOneAndUpdate w.store defaultContext f u .After).1.err = some e →
      Update collection filter update w =
        (.ret none (some e),
          ⟨(collection.findOneAndUpdate w.store defaultContext f u .After).2,
            w.log ++ [Call.FindOneAndUpdate defaultContext f u .After]⟩)) ∧
    (∀ (ID : String) (objectID : ObjectID) (update : M) (u : Raw),
      ObjectIDFromHex ID = .ok objectID → jsonToBson update = .ok u →
      (collection.findOneAndUpdate w.store defaultContext
        [("_id", .oid objectID)] u .After).1.err = some e →
      UpdateByID collection ID update w =
        (.ret none (some e),
          ⟨(collection.findOneAndUpdate w.store defaultContext
              [("_id", .oid objectID)] u .After).2,
            w.log ++ [Call.FindOneAndUpdate defaultContext [("_id", .oid objectID)] u .After]⟩)) ∧
    (∀ (filter : M) (f : Raw), jsonToBson filter = .ok f →
      (collection.findOneAndDelete w.store defaultContext f).1.err = some e →
      Remove collection filter w =
        (.ret none (some e),
          ⟨(collection.findOneAndDelete w.store defaultContext f).2,
            w.log ++ [Call.FindOneAndDelete defaultContext f]⟩)) ∧
    (∀ (ID : String) (objectID : ObjectID), ObjectIDFromHex ID = .ok objectID →
      (collection.findOneAndDelete w.store defaultContext
        [("_id", .oid objectID)]).1.err = some e →
      RemoveByID collection ID w =
        (.ret none (some e),
          ⟨(collection.findOneAndDelete w.store defaultContext [("_id", .oid objectID)]).2,
            w.log ++ [Call.FindOneAndDelete defaultContext [("_id", .oid objectID)]]⟩)) := by
  refine ⟨?_, ?_, ?_, ?_⟩
  · intro filter update f u h1 h2 h3
    simp [Update, h1, h2, Collection.FindOneAndUpdate, transformBsoncoreDocument,
      SingleResult.Err, h3]
  · intro ID objectID update u h1 h2 h3
    simp [UpdateByID, h1, h2, Collection.FindOneAndUpdate, transformBsoncoreDocument,
      SingleResult.Err, h3, Marshal_id]
  · intro filter f h1 h3
    simp [Remove, h1, Collection.FindOneAndDelete, transformBsoncoreDocument,
      SingleResult.Err, h3]
  · intro ID objectID h1 h3
    simp [RemoveByID, h1, Collection.FindOneAndDelete, transformBsoncoreDocument,
      SingleResult.Err, h3, Marshal_id]

theorem store_error_returned_verbatim_witness :
    jsonToBson [("item", .str "b")] = .ok [("item", .str "b")] ∧
    (memCollection.findOneAndDelete ⟨[], 0⟩ defaultContext [("item", .str "b")]).1.err
      = some .ErrNoDocuments ∧
    Remove memCollection [("item", .str "b")] ⟨⟨[], 0⟩, []⟩ =
      (.ret none (some .ErrNoDocuments),
        ⟨⟨[], 0⟩, [Call.FindOneAndDelete defaultContext [("item", .str "b")]]⟩) ∧
    ObjectIDFromHex "000000000000000000000000" = .ok (ObjectID.ofNat 0) ∧
    UpdateByID memCollection "000000000000000000000000"
        [("$set", .doc [("item", .str "b")])] ⟨⟨[], 0⟩, []⟩ =
      (.ret none (some .ErrNoDocuments),
        ⟨⟨[], 0⟩, [Call.FindOneAndUpdate defaultContext [("_id", .oid (ObjectID.ofNat 0))]
          [("$set", .doc [("item", .str "b")])] .After]⟩) :=
  ⟨rfl, rfl,
   (store_error_returned_verbatim memCollection ⟨⟨[], 0⟩, []⟩ .ErrNoDocuments).2.2.1
      [("item", .str "b")] [("item", .str "b")] rfl rfl,
   rfl,
   (store_error_returned_verbatim memCollection ⟨⟨[], 0⟩, []⟩ .ErrNoDocuments).2.1
      "000000000000000000000000" (ObjectID.ofNat 0) [("$set", .doc [("item", .str "b")])]
      [("$set", .doc [("item", .str "b")])] rfl rfl rfl⟩

/-! ## The connection string -/

theorem cutAt_none (p : Char → Bool) (l : List Char) (h : ∀ c ∈ l, p c = false) :
    cutAt p l = (l, none) := by
  induction l with
  | nil => rfl
  | cons c r ih =>
    have hc := h c (List.mem_cons_self _ _)
    have hr := ih (fun x hx => h x (List.mem_cons_of_mem _ hx))
    simp [cutAt, hc, hr]

theorem cutAt_append_hit (p : Char → Bool) (l r : List Char) (x : Char)
    (h : ∀ c ∈ l, p c = false) (hx : p x = true) :
    cutAt p (l ++ x :: r) = (l, some (x, r)) := by
  induction l with
  | nil => simp [cutAt, hx]
  | cons c t ih =>
    have hc := h c (List.mem_cons_self _ _)
    have ht := ih (fun y hy => h y (List.mem_cons_of_mem _ hy))
    simp [cutAt, hc, ht]

theorem splitComma_none (l : List Char) (h : ∀ c ∈ l, c ≠ ',') : splitComma l = [l] := by
  induction l with
  | nil => rfl
  | cons c r ih =>
    have hc := h c (List.mem_cons_self _ _)
    have hr := ih (fun x hx => h x (List.mem_cons_of_mem _ hx))
    simp [splitComma, hc, hr]

theorem uri_data (service : String) :
    (CreateMongoClient.uri service).data =
      'm' :: 'o' :: 'n' :: 'g' :: 'o' :: 'd' :: 'b' :: ':' :: '/' :: '/' ::
        (service.data ++ [':', '2', '7', '0', '1', '7']) := by
  simp [CreateMongoClient.uri, String.data_append]

theorem parseConnString_uri (service : String) :
    parseConnString (CreateMongoClient.uri service) =
      match (cutAt (fun c => c = '@') (service.data ++ [':', '2', '7', '0', '1', '7'])).2 with
      | none => parseHosts "mongodb" none (service.data ++ [':', '2', '7', '0', '1', '7'])
      | some x =>
        match parseUserInfo
          (cutAt (fun c => c = '@') (service.data ++ [':', '2', '7', '0', '1', '7'])).1 with
        | .rejected => .rejected
        | .unmodelled => .unmodelled
        | .accepted cred => parseHosts "mongodb" (some cred) x.2 := by
  unfold parseConnString
  rw [uri_data]
  have e1 : "mongodb+srv://".data =
      ['m', 'o', 'n', 'g', 'o', 'd', 'b', '+', 's', 'r', 'v', ':', '/', '/'] := rfl
  have e2 : "mongodb://".data = ['m', 'o', 'n', 'g', 'o', 'd', 'b', ':', '/', '/'] := rfl
  rw [e1, e2]
  simp [stripLeading]

theorem parseHosts_scheme (scheme : String) (ui : Option (String × Option String))
    (rest : List Char) (cs : ConnString) (h : parseHosts scheme ui rest = .accepted cs) :
    cs.scheme = scheme := by
  unfold parseHosts at h
  split at h
  · split at h <;> simp at h
  · split at h
    · simp at h
    · simp only [Read.accepted.injEq] at h
      rw [← h]
    · simp at h
    · simp at h

theorem addHost_plain (service : String) (hp : PlainAddress service) :
    addHost (service.data ++ [':', '2', '7', '0', '1', '7']) = .accepted () := by
  have hany : (service.data ++ [':', '2', '7', '0', '1', '7']).any
      (fun c => c = '%' || c = '+' || c = '[' || c = ']') = false := by
    have tail : ∀ c ∈ [':', '2', '7', '0', '1', '7'],
        ¬ ((c = '%' || c = '+' || c = '[' || c = ']') = true) := by decide
    rw [List.any_eq_false]
    intro c hc
    rcases List.mem_append.1 hc with h1 | h1
    · obtain ⟨_, _, _, _, _, h5, h6, h7, h8⟩ := hp c h1
      simp [h5, h6, h7, h8]
    · exact tail c h1
  have hcut := cutAt_append_hit (fun c => c = ':') service.data ['2', '7', '0', '1', '7'] ':'
    (fun c hc => by simp [(hp c hc).2.2.2.2.1]) (by simp)
  unfold addHost
  rw [if_neg (by simp [hany]), hcut]
  have h1 : (['2', '7', '0', '1', '7'] : List Char).any (fun c => c = ':') = false := by decide
  have h2 : portOK ['2', '7', '0', '1', '7'] = true := by decide
  simp [h1, h2]

/-- C8 (refuted as stated): an address with an `@` puts credentials into the
connection string, an address with a comma and a port names a second host and
overrides the port of the first, and an address with a port of its own makes
the connection string one that the driver refuses. -/
theorem uri_can_carry_credentials_and_ports :
    parseConnString (CreateMongoClient.uri "root:pw@db") =
      .accepted ⟨"mongodb", some ("root", some "pw"), ["db:27017"]⟩ ∧
    parseConnString (CreateMongoClient.uri "a:1,b") =
      .accepted ⟨"mongodb", none, ["a:1", "b:27017"]⟩ ∧
    parseConnString (CreateMongoClient.uri "db:1") = .rejected := by
  decide

/-- C8 (amended): the connection string is the scheme `mongodb://`, the address,
and `:27017`, and that string is what `CreateMongoClient` hands to the client
constructor; whenever it is accepted its scheme is `mongodb`; and for a bare
address (none of `@ / ? , : % + [ ]`) the driver accepts it, it carries no
credentials and it names exactly one host entry, the address followed by
`:27017`. -/
theorem uri_of_plain_address (service : String) :
    CreateMongoClient.uri service = "mongodb://" ++ service ++ ":27017" ∧
    (∀ (κ : Type) (mongo : Mongo κ) (err : Err),
      mongo.NewClient ("mongodb://" ++ service ++ ":27017") = .error err →
      CreateMongoClient mongo service = .ret none (some err)) ∧
    (∀ cs : ConnString,
      parseConnString (CreateMongoClient.uri service) = .accepted cs →
        cs.scheme = "mongodb") ∧
    (PlainAddress service →
      parseConnString (CreateMongoClient.uri service) =
        .accepted ⟨"mongodb", none, [service ++ ":27017"]⟩) := by
  refine ⟨rfl, ?_, ?_, ?_⟩
  · intro κ mongo err h
    simp [CreateMongoClient, CreateMongoClient.uri, h]
  · intro cs h
    rw [parseConnString_uri] at h
    split at h
    · exact parseHosts_scheme _ _ _ _ h
    · split at h
      · simp at h
      · simp at h
      · exact parseHosts_scheme _ _ _ _ h
  · intro hp
    rw [parseConnString_uri]
    have tail : ∀ c ∈ [':', '2', '7', '0', '1', '7'],
        c ≠ '@' ∧ c ≠ '/' ∧ c ≠ '?' ∧ c ≠ ',' := by decide
    have hall : ∀ c ∈ service.data ++ [':', '2', '7', '0', '1', '7'],
        c ≠ '@' ∧ c ≠ '/' ∧ c ≠ '?' ∧ c ≠ ',' := by
      intro c hc
      rcases List.mem_append.1 hc with h1 | h1
      · exact ⟨(hp c h1).1, (hp c h1).2.1, (hp c h1).2.2.1, (hp c h1).2.2.2.1⟩
      · exact tail c h1
    have c1 := cutAt_none (fun c => c = '@') (service.data ++ [':', '2', '7', '0', '1', '7'])
      (fun c hc => by simp [(hall c hc).1])
    have c2 := cutAt_none (fun c => c = '/' || c = '?' || c = '@')
      (service.data ++ [':', '2', '7', '0', '1', '7'])
      (fun c hc => by simp [(hall c hc).1, (hall c hc).2.1, (hall c hc).2.2.1])
    have c3 := splitComma_none (service.data ++ [':', '2', '7', '0', '1', '7'])
      (fun c hc => (hall c hc).2.2.2)
    have hne : service.data ++ [':', '2', '7', '0', '1', '7'] ≠ [] := by simp
    have hhosts : addHosts [service.data ++ [':', '2', '7', '0', '1', '7']] =
        .accepted [service ++ ":27017"] := by
      have hs : String.mk (service.data ++ [':', '2', '7', '0', '1', '7'])
          = service ++ ":27017" := by
        apply String.ext
        simp [String.data_append]
      simp only [addHosts, if_neg hne, addHost_plain service hp, hs]
    simp only [c1]
    unfold parseHosts
    simp only [c2, c3, hhosts]

theorem uri_of_plain_address_witness :
    PlainAddress "localhost" ∧
    parseConnString (CreateMongoClient.uri "localhost") =
      .accepted ⟨"mongodb", none, ["localhost:27017"]⟩ :=
  ⟨by decide, (uri_of_plain_address "localhost").2.2.2 (by decide)⟩

/-! ## Reading everything -/

/-- C9: when the unfiltered scan succeeds (the round trip of `Find` gives a cursor
and no error, and the cursor yields the documents `documents`, one mapping per
document in scan order), `GetAll` returns exactly that sequence and no error,
after that one round trip; for an empty collection the result is the empty,
non-nil sequence. -/
theorem GetAll_returns_scan {σ : Type} (collection : Collection σ) (w : World σ)
    (cur : Cursor) (documents : List M)
    (hfind : (collection.find w.store defaultContext []).1 = (some cur, none))
    (hall : cur.All = .ok documents) :
    GetAll collection w =
      (.ret (some documents) none,
        ⟨(collection.find w.store defaultContext []).2,
          w.log ++ [Call.Find defaultContext []]⟩) ∧
    (documents = [] → (GetAll collection w).1 = .ret (some []) none) := by
  have key : GetAll collection w =
      (.ret (some documents) none,
        ⟨(collection.find w.store defaultContext []).2,
          w.log ++ [Call.Find defaultContext []]⟩) := by
    simp [GetAll, Collection.Find, transformBsoncoreDocument, Marshal, Value.encodableFields,
      hfind, hall]
  refine ⟨key, ?_⟩
  intro h
  rw [key, h]

theorem GetAll_returns_scan_witness :
    (memCollection.find ⟨[[("_id", .oid (ObjectID.ofNat 7)), ("item", .str "z")],
        [("_id", .oid (ObjectID.ofNat 8)), ("item", .str "a")]], 9⟩ defaultContext []).1
      = (some ⟨.ok [[("_id", .oid (ObjectID.ofNat 7)), ("item", .str "z")],
          [("_id", .oid (ObjectID.ofNat 8)), ("item", .str "a")]]⟩, none) ∧
    GetAll memCollection ⟨⟨[[("_id", .oid (ObjectID.ofNat 7)), ("item", .str "z")],
        [("_id", .oid (ObjectID.ofNat 8)), ("item", .str "a")]], 9⟩, []⟩ =
      (.ret (some [[("_id", .oid (ObjectID.ofNat 7)), ("item", .str "z")],
          [("_id", .oid (ObjectID.ofNat 8)), ("item", .str "a")]]) none,
        ⟨⟨[[("_id", .oid (ObjectID.ofNat 7)), ("item", .str "z")],
          [("_id", .oid (ObjectID.ofNat 8)), ("item", .str "a")]], 9⟩,
          [Call.Find defaultContext []]⟩) ∧
    (memCollection.find ⟨[], 0⟩ defaultContext []).1 = (some ⟨.ok []⟩, none) ∧
    (GetAll memCollection ⟨⟨[], 0⟩, []⟩).1 = .ret (some []) none :=
  ⟨rfl,
   (GetAll_returns_scan memCollection
      ⟨⟨[[("_id", .oid (ObjectID.ofNat 7)), ("item", .str "z")],
        [("_id", .oid (ObjectID.ofNat 8)), ("item", .str "a")]], 9⟩, []⟩
      ⟨.ok [[("_id", .oid (ObjectID.ofNat 7)), ("item", .str "z")],
        [("_id", .oid (ObjectID.ofNat 8)), ("item", .str "a")]]⟩ _ rfl rfl).1,
   rfl,
   (GetAll_returns_scan memCollection ⟨⟨[], 0⟩, []⟩ ⟨.ok []⟩ [] rfl rfl).2 rfl⟩

/-! ## By identifier is by filter on the identifier -/

/-- C10: for a well-formed identifier string `X`, which decodes to an identifier
`I`, `UpdateByID` with `X` and `U` is `Update` with the filter that maps `_id` to
`I` and `U`, and `RemoveByID` with `X` is `Remove` with that filter: same
outcome, same store afterwards, same round trips, for every collection and run
state. -/
theorem byID_is_byFilter_on_identifier {σ : Type} (collection : Collection σ)
    (w : World σ) (X : String) (U : M) (h : WellFormedID X) :
    ∃ I : ObjectID, ObjectIDFromHex X = .ok I ∧
      UpdateByID collection X U w = Update collection [("_id", .oid I)] U w ∧
      RemoveByID collection X w = Remove collection [("_id", .oid I)] w := by
  obtain ⟨I, hI⟩ := ObjectIDFromHex_of_wellFormed X h
  refine ⟨I, hI, ?_, ?_⟩
  · simp only [UpdateByID, Update, hI, jsonToBson_eq_Marshal, Marshal_id]
    cases Marshal U with
    | error e => rfl
    | ok u =>
      simp [Collection.FindOneAndUpdate, transformBsoncoreDocument, Marshal_id]
  · simp [RemoveByID, Remove, hI, jsonToBson_eq_Marshal, Marshal_id,
      Collection.FindOneAndDelete, transformBsoncoreDocument]

theorem byID_is_byFilter_on_identifier_witness :
    WellFormedID "00000000000000000000000A" ∧
    ∃ I : ObjectID, ObjectIDFromHex "00000000000000000000000A" = .ok I ∧
      UpdateByID memCollection "00000000000000000000000A"
          [("$set", .doc [("item", .str "b")])]
          ⟨⟨[[("_id", .oid (ObjectID.ofNat 10)), ("item", .str "a")]], 11⟩, []⟩
        = Update memCollection [("_id", .oid I)] [("$set", .doc [("item", .str "b")])]
          ⟨⟨[[("_id", .oid (ObjectID.ofNat 10)), ("item", .str "a")]], 11⟩, []⟩ ∧
      RemoveByID memCollection "00000000000000000000000A"
          ⟨⟨[[("_id", .oid (ObjectID.ofNat 10)), ("item", .str "a")]], 11⟩, []⟩
        = Remove memCollection [("_id", .oid I)]
          ⟨⟨[[("_id", .oid (ObjectID.ofNat 10)), ("item", .str "a")]], 11⟩, []⟩ :=
  ⟨by decide, byID_is_byFilter_on_identifier memCollection
    ⟨⟨[[("_id", .oid (ObjectID.ofNat 10)), ("item", .str "a")]], 11⟩, []⟩
    "00000000000000000000000A" [("$set", .doc [("item", .str "b")])] (by decide)⟩

end Gomongo
